import Mathlib

/-!
Verification of the run-update relay of the VeriVerse backend
(`src/server/websocket.ts`) and its client counterpart
(`src/client/src/hooks/useWebSocket.ts`, `src/client/src/pages/AskPage.tsx`).

The server relay keeps two module-level maps:
  `subscriptions : Map<string, Set<WebSocket>>` and `runCache : Map<string, any>`.
We embed JavaScript `Map`s as association lists in insertion order and
`Set<WebSocket>` as a duplicate-free list of connection identifiers in
insertion order.  Network effects are parameters: `isOpen : Conn → Bool`
models `ws.readyState === WebSocket.OPEN`, and
`fetchEnv : String → Option RunState` models the composed result of
`fetch` on the external service (`none` = network error, timeout or a
non-2xx response, exactly the cases where `pollRunStatus` returns `null`).
-/

/-- A WebSocket connection handle (`ws`), identified by a number. -/
abbrev Conn := Nat

/-- The run state fetched from `GET /runs/{run_id}`: the five fields read by
`hasRunStateChanged`.  `votes` and `evidence` are lists of serialized
records; the source compares them with `JSON.stringify` equality, which is
value equality of the lists. -/
structure RunState where
  status : String
  confidence : Rat
  provisional_answer : String
  votes : List String
  evidence : List String
deriving DecidableEq, Repr

/-- The outbound envelope built once in `broadcastRunUpdate`
(`JSON.stringify({type: "run_update", runId, data})`); we keep it as a
structured value rather than a byte string. -/
structure WsMessage where
  type : String
  runId : String
  data : RunState
deriving DecidableEq, Repr

/-! ### Association lists modelling JavaScript `Map` -/

/-- `m.get(k)` on a JS `Map`. -/
def lookupA {α : Type} (m : List (String × α)) (k : String) : Option α :=
  match m with
  | [] => none
  | p :: rest => if p.1 = k then some p.2 else lookupA rest k

/-- `m.set(k, v)` on a JS `Map`: updates the entry in place when the key is
present, otherwise appends (JS `Map` preserves insertion order). -/
def insertA {α : Type} (m : List (String × α)) (k : String) (v : α) :
    List (String × α) :=
  if (lookupA m k).isSome then
    m.map (fun p => if p.1 = k then (k, v) else p)
  else
    m ++ [(k, v)]

/-- `m.delete(k)` on a JS `Map`. -/
def eraseA {α : Type} (m : List (String × α)) (k : String) :
    List (String × α) :=
  m.filter (fun p => !(p.1 = k : Bool))

/-! ### `Set<WebSocket>` operations -/

/-- `set.add(ws)`: appends when absent, no-op when present. -/
def addConn (c : Conn) (l : List Conn) : List Conn :=
  if c ∈ l then l else l ++ [c]

/-- `set.delete(ws)`. -/
def removeConn (c : Conn) (l : List Conn) : List Conn :=
  l.erase c

/-! ### Server relay state and operations (src/server/websocket.ts) -/

/-- The two module-level maps of `websocket.ts`. -/
structure ServerState where
  subscriptions : List (String × List Conn)
  runCache : List (String × RunState)
deriving DecidableEq, Repr

/-- `subscribeToRun` (lines 64-69): create an empty set if absent, then add. -/
def subscribeToRun (s : ServerState) (runId : String) (ws : Conn) :
    ServerState :=
  let cur := (lookupA s.subscriptions runId).getD []
  { s with subscriptions := insertA s.subscriptions runId (addConn ws cur) }

/-- `unsubscribeFromRun` (lines 71-80): remove the connection; when the set
becomes empty, delete both the subscriber set and the cached snapshot. -/
def unsubscribeFromRun (s : ServerState) (runId : String) (ws : Conn) :
    ServerState :=
  match lookupA s.subscriptions runId with
  | none => s
  | some clients =>
    let clients' := removeConn ws clients
    if clients'.length = 0 then
      { subscriptions := eraseA s.subscriptions runId
        runCache := eraseA s.runCache runId }
    else
      { s with subscriptions := insertA s.subscriptions runId clients' }

/-- The per-run body of the `ws.on("close")` sweep (lines 43-49): the
subscriber sets that become empty once `ws` is removed. -/
def emptiedBy (c : Conn) (subs : List (String × List Conn)) : List String :=
  subs.filterMap (fun p =>
    if (removeConn c p.2).length = 0 then some p.1 else none)

/-- The surviving subscriber sets after the `ws.on("close")` sweep. -/
def sweepConn (c : Conn) (subs : List (String × List Conn)) :
    List (String × List Conn) :=
  subs.filterMap (fun p =>
    let cl := removeConn c p.2
    if cl.length = 0 then none else some (p.1, cl))

/-- The `ws.on("close")` handler (lines 40-50): remove `ws` from every
subscription; sets that become empty are deleted together with their cached
snapshot. -/
def onDisconnect (c : Conn) (s : ServerState) : ServerState :=
  { subscriptions := sweepConn c s.subscriptions
    runCache := s.runCache.filter
      (fun q => !((emptiedBy c s.subscriptions).contains q.1)) }

/-- `getSubscriptionCount` (lines 105-107): `get(runId)?.size || 0`. -/
def getSubscriptionCount (s : ServerState) (runId : String) : Nat :=
  ((lookupA s.subscriptions runId).getD []).length

/-- `getActiveRunIds` (lines 109-114): the map keys whose subscriber set is
non-empty. -/
def getActiveRunIds (s : ServerState) : List String :=
  (s.subscriptions.map Prod.fst).filter
    (fun runId => decide (0 < getSubscriptionCount s runId))

/-- `broadcastRunUpdate` (lines 82-103): build one envelope, send it to each
subscribed connection whose transport is open, and leave the state as it is.
Returns the (unchanged) state together with the list of performed sends. -/
def broadcastRunUpdate (isOpen : Conn → Bool) (s : ServerState)
    (runId : String) (data : RunState) :
    ServerState × List (Conn × WsMessage) :=
  match lookupA s.subscriptions runId with
  | none => (s, [])
  | some clients =>
    if clients.length = 0 then (s, [])
    else
      let message : WsMessage := ⟨"run_update", runId, data⟩
      (s, (clients.filter isOpen).map (fun c => (c, message)))

/-- `runId.startsWith("demo_run_")` (line 148), the reserved local/demo
prefix check, expressed over the character list of the string. -/
def isDemoRun (runId : String) : Bool :=
  "demo_run_".toList.isPrefixOf runId.toList

/-- `pollRunStatus` (lines 116-127): a network error, timeout or non-2xx
response yields `null`; a 2xx response yields the parsed state.  The
environment `fetchEnv` already folds those cases into an `Option`. -/
def pollRunStatus (fetchEnv : String → Option RunState) (runId : String) :
    Option RunState :=
  fetchEnv runId

/-- The field comparison of `hasRunStateChanged` (lines 133-140) against a
given cached snapshot (`none` = no snapshot, which counts as a change). -/
def changedAgainst (cached : Option RunState) (newState : RunState) : Bool :=
  match cached with
  | none => true
  | some c =>
    if c.status ≠ newState.status then true
    else if c.confidence ≠ newState.confidence then true
    else if c.provisional_answer ≠ newState.provisional_answer then true
    else if c.votes ≠ newState.votes then true
    else if c.evidence ≠ newState.evidence then true
    else false

/-- `hasRunStateChanged` (lines 129-141). -/
def hasRunStateChanged (s : ServerState) (runId : String)
    (newState : RunState) : Bool :=
  changedAgainst (lookupA s.runCache runId) newState

/-- The observable outcome of one `pollActiveRuns` tick: the final state,
the run ids for which a fetch was issued, the broadcast invocations, the
individual sends, and the evictions scheduled via `setTimeout(_, 5000)`. -/
structure TickResult where
  state : ServerState
  fetches : List String
  broadcasts : List (String × RunState)
  sends : List (Conn × WsMessage)
  scheduled : List (String × Nat)
deriving Repr

/-- One iteration of the `for` loop of `pollActiveRuns` (lines 146-165):
skip demo runs, fetch, and on a detected change update the cache, broadcast,
and for a `completed` state schedule eviction of the snapshot 5000 ms later. -/
def pollOneRun (isOpen : Conn → Bool) (fetchEnv : String → Option RunState)
    (acc : TickResult) (runId : String) : TickResult :=
  if isDemoRun runId then acc
  else
    match pollRunStatus fetchEnv runId with
    | none => { acc with fetches := acc.fetches ++ [runId] }
    | some state =>
      if hasRunStateChanged acc.state runId state then
        let s1 : ServerState :=
          { acc.state with runCache := insertA acc.state.runCache runId state }
        let out := broadcastRunUpdate isOpen s1 runId state
        { state := out.1
          fetches := acc.fetches ++ [runId]
          broadcasts := acc.broadcasts ++ [(runId, state)]
          sends := acc.sends ++ out.2
          scheduled := acc.scheduled ++
            (if state.status = "completed" then [(runId, 5000)] else []) }
      else { acc with fetches := acc.fetches ++ [runId] }

/-- `pollActiveRuns` (lines 143-166) as one atomic tick: the active run ids
are read once at the start and processed in order. -/
def pollActiveRuns (isOpen : Conn → Bool)
    (fetchEnv : String → Option RunState) (s : ServerState) : TickResult :=
  (getActiveRunIds s).foldl (pollOneRun isOpen fetchEnv) ⟨s, [], [], [], []⟩

/-- The deferred cleanup scheduled at lines 160-162 firing: delete the
cached snapshot of `runId` (it touches nothing else, in particular not the
subscriber sets). -/
def fireEviction (runId : String) (s : ServerState) : ServerState :=
  { s with runCache := eraseA s.runCache runId }

/-- Number of broadcast invocations a tick performed for one run id. -/
def broadcastCount (t : TickResult) (runId : String) : Nat :=
  (t.broadcasts.filter (fun p => p.1 == runId)).length

/-- The number of broadcasts the processing of `runId` contributes in a
tick, as a function of the fetch result and the cached snapshot it is
compared against. -/
def tickOutcome (fetchEnv : String → Option RunState)
    (cached : Option RunState) (runId : String) : Nat :=
  if isDemoRun runId then 0
  else
    match fetchEnv runId with
    | none => 0
    | some st => if changedAgainst cached st then 1 else 0

/-! ### Invariant predicates about the server state -/

/-- The keys of the `subscriptions` map are distinct (a JS `Map` cannot hold
two entries for one key; association lists have to state it). -/
def KeysNodup (s : ServerState) : Prop :=
  (s.subscriptions.map Prod.fst).Nodup

/-- Every subscriber set is duplicate-free (a JS `Set` cannot hold two equal
members). -/
def SubsNodup (s : ServerState) : Prop :=
  ∀ p ∈ s.subscriptions, p.2.Nodup

/-- Every subscriber set stored in the registry is non-empty. -/
def NonEmptySubs (s : ServerState) : Prop :=
  ∀ p ∈ s.subscriptions, p.2 ≠ []

/-- Every cached snapshot belongs to a run with at least one subscriber. -/
def cacheHasSubscriber (s : ServerState) : Prop :=
  ∀ q ∈ s.runCache, 0 < getSubscriptionCount s q.1

instance (s : ServerState) : Decidable (KeysNodup s) := by
  unfold KeysNodup
  infer_instance

instance (s : ServerState) : Decidable (SubsNodup s) := by
  unfold SubsNodup
  infer_instance

instance (s : ServerState) : Decidable (NonEmptySubs s) := by
  unfold NonEmptySubs
  infer_instance

instance (s : ServerState) : Decidable (cacheHasSubscriber s) := by
  unfold cacheHasSubscriber
  infer_instance

/-! ### Interleaved execution of the relay

`startBackgroundPolling` (lines 168-183) arms a `setInterval` whose callback
invokes the `async` function `pollActiveRuns()` WITHOUT awaiting it, so a
timer fire is processed even while a previous tick is still suspended on a
fetch.  Inside one tick the `for` loop awaits each fetch before issuing the
next, so a tick is a coroutine holding at most one outstanding fetch.  We
model the event loop as a small-step relation over the server state plus the
list of live tick coroutines; message handlers (lines 22-50) may run
whenever the loop is suspended. -/

/-- One live `pollActiveRuns` invocation: the run ids still to process and
the fetch currently awaited, if any. -/
structure TickCo where
  pending : List String
  outstanding : Option String
deriving DecidableEq, Repr

/-- A configuration of the event loop: the relay state and the live ticks. -/
structure Config where
  srv : ServerState
  ticks : List TickCo
deriving DecidableEq, Repr

/-- The synchronous continuation after a fetch resolves (lines 151-156):
on a detected change update the cache; the broadcast leaves the maps
untouched. -/
def applyRunUpdate (s : ServerState) (runId : String) (st : RunState) :
    ServerState :=
  if hasRunStateChanged s runId st then
    { s with runCache := insertA s.runCache runId st }
  else s

/-- One atomic step of the relay's event loop. -/
inductive RelayStep : Config → Config → Prop where
  /-- A `subscribe` control message is handled (lines 26-29). -/
  | subscribeMsg (cfg : Config) (runId : String) (c : Conn) :
      RelayStep cfg ⟨subscribeToRun cfg.srv runId c, cfg.ticks⟩
  /-- An `unsubscribe` control message is handled (lines 31-34). -/
  | unsubscribeMsg (cfg : Config) (runId : String) (c : Conn) :
      RelayStep cfg ⟨unsubscribeFromRun cfg.srv runId c, cfg.ticks⟩
  /-- A connection closes (lines 40-50). -/
  | closeConn (cfg : Config) (c : Conn) :
      RelayStep cfg ⟨onDisconnect c cfg.srv, cfg.ticks⟩
  /-- The interval callback fires with a non-empty active set (lines
  173-180): it starts `pollActiveRuns()` without awaiting it, so it may fire
  while earlier ticks are still live.  The new tick reads the active run ids
  once (line 144). -/
  | timerFire (cfg : Config)
      (h : 0 < (getActiveRunIds cfg.srv).length) :
      RelayStep cfg ⟨cfg.srv, cfg.ticks ++ [⟨getActiveRunIds cfg.srv, none⟩]⟩
  /-- A tick skips a demo run without fetching (lines 147-148). -/
  | skipDemo (cfg : Config) (pre post : List TickCo) (runId : String)
      (rest : List String)
      (h : cfg.ticks = pre ++ ⟨runId :: rest, none⟩ :: post)
      (hd : isDemoRun runId = true) :
      RelayStep cfg ⟨cfg.srv, pre ++ ⟨rest, none⟩ :: post⟩
  /-- A tick issues the fetch for its next run and suspends on it
  (line 150). -/
  | issueFetch (cfg : Config) (pre post : List TickCo) (runId : String)
      (rest : List String)
      (h : cfg.ticks = pre ++ ⟨runId :: rest, none⟩ :: post)
      (hd : isDemoRun runId = false) :
      RelayStep cfg ⟨cfg.srv, pre ++ ⟨rest, some runId⟩ :: post⟩
  /-- The awaited fetch fails (network error, timeout or non-2xx): the tick
  resumes with no new information (lines 116-127, 151). -/
  | resolveFail (cfg : Config) (pre post : List TickCo) (runId : String)
      (rest : List String)
      (h : cfg.ticks = pre ++ ⟨rest, some runId⟩ :: post) :
      RelayStep cfg ⟨cfg.srv, pre ++ ⟨rest, none⟩ :: post⟩
  /-- The awaited fetch resolves with state `st`; the tick synchronously
  runs the change detection, cache update and broadcast (lines 151-164). -/
  | resolveOk (cfg : Config) (pre post : List TickCo) (runId : String)
      (rest : List String) (st : RunState)
      (h : cfg.ticks = pre ++ ⟨rest, some runId⟩ :: post) :
      RelayStep cfg ⟨applyRunUpdate cfg.srv runId st, pre ++ ⟨rest, none⟩ :: post⟩
  /-- A tick with nothing left to do returns. -/
  | tickDone (cfg : Config) (pre post : List TickCo)
      (h : cfg.ticks = pre ++ ⟨([] : List String), none⟩ :: post) :
      RelayStep cfg ⟨cfg.srv, pre ++ post⟩

/-- Reachability in the event-loop semantics. -/
def RelayReaches : Config → Config → Prop :=
  Relation.ReflTransGen RelayStep

/-- The run ids of all fetches currently in flight across live ticks. -/
def outstandingFetches (cfg : Config) : List String :=
  cfg.ticks.filterMap TickCo.outstanding

/-- A start configuration: one client (connection `0`) subscribed to
`"run_a"`, nothing cached, no tick live. -/
def cfgInit : Config := ⟨subscribeToRun ⟨[], []⟩ "run_a" 0, []⟩

/-- A fixed run state used by the concrete executions. -/
def stInProgress : RunState := ⟨"in_progress", 0, "", [], []⟩

/-- A fixed completed run state used by the concrete executions. -/
def stCompleted : RunState := ⟨"completed", 1, "yes", ["v1"], ["e1"]⟩

/-- `cfgInit` after the interval fires: one tick holding `["run_a"]`. -/
def cfgTick1 : Config :=
  ⟨cfgInit.srv, cfgInit.ticks ++ [⟨getActiveRunIds cfgInit.srv, none⟩]⟩

/-- `cfgTick1` after the tick issues its fetch for `"run_a"`. -/
def cfgFetch1 : Config :=
  ⟨cfgTick1.srv, [] ++ ⟨[], some "run_a"⟩ :: []⟩

/-- `cfgFetch1` after the only subscriber unsubscribes while the fetch is
in flight. -/
def cfgUnsub : Config :=
  ⟨unsubscribeFromRun cfgFetch1.srv "run_a" 0, cfgFetch1.ticks⟩

/-- `cfgUnsub` after the in-flight fetch resolves: the tick re-inserts a
snapshot for the now subscriber-less run. -/
def cfgStale : Config :=
  ⟨applyRunUpdate cfgUnsub.srv "run_a" stInProgress, [] ++ ⟨[], none⟩ :: []⟩

/-- `cfgFetch1` after the interval fires again while the first fetch is
still in flight. -/
def cfgTick2 : Config :=
  ⟨cfgFetch1.srv, cfgFetch1.ticks ++ [⟨getActiveRunIds cfgFetch1.srv, none⟩]⟩

/-- `cfgTick2` after the second tick issues its own fetch for `"run_a"`:
two fetches for the same run id are now racing. -/
def cfgRace : Config :=
  ⟨cfgTick2.srv, [⟨[], some "run_a"⟩] ++ ⟨[], some "run_a"⟩ :: []⟩

/-! ### Client model (AskPage.tsx and useWebSocket.ts)

The client is embedded at the granularity of React commits: an event
(a handler running) updates the state, and the fallback-polling effect of
`AskPage` (lines 54-85), whose dependency array contains every value it
reads, re-runs before the next event is processed.  A settled state is
therefore always the result of `clientPollingEffect` applied after an
event. -/

/-- The client state read by the fallback-polling effect: the current run
id, the demo flag, the last seen run status (`isCompleted` is
`runStatus = "completed"`), the hook's `isConnected`, and whether the
fallback poll interval is armed (`pollingRef.current !== null`). -/
structure ClientState where
  runId : Option String
  isDemo : Bool
  runStatus : String
  isConnected : Bool
  polling : Bool
deriving DecidableEq, Repr

/-- The events that mutate the client state. -/
inductive ClientEvent where
  /-- `handleSubmit` completes (AskPage lines 87-120): a new run id, demo
  flag and initial status are set and the poller is cleared. -/
  | startRun (id : String) (demo : Bool) (st : String)
  /-- The WebSocket `onopen` handler runs (useWebSocket lines 82-94). -/
  | wsOpen
  /-- The WebSocket `onclose` handler or `disconnect` runs (useWebSocket
  lines 40-59, 110-122). -/
  | wsClose
  /-- `handleWebSocketUpdate` runs (AskPage lines 24-33): store the state
  and clear the poll interval. -/
  | wsUpdate (st : String)
  /-- The armed fallback interval fires and `pollRunStatus` resolves
  (AskPage lines 41-52): store the state; on `completed` clear the
  interval. -/
  | pollTick (st : String)
deriving DecidableEq, Repr

/-- `shouldPoll` of the fallback effect (AskPage line 60):
`runId && !isDemo && !isCompleted && !isConnected`. -/
def shouldPoll (s : ClientState) : Bool :=
  s.runId.isSome && !s.isDemo && !(s.runStatus == "completed") &&
    !s.isConnected

/-- The immediate effect of one event on the client state. -/
def applyClientEvent : ClientEvent → ClientState → ClientState
  | .startRun id demo st, s =>
      { s with runId := some id, isDemo := demo, runStatus := st,
               polling := false }
  | .wsOpen, s => { s with isConnected := true }
  | .wsClose, s => { s with isConnected := false }
  | .wsUpdate st, s => { s with runStatus := st, polling := false }
  | .pollTick st, s =>
      { s with runStatus := st,
               polling := if st == "completed" then false else s.polling }

/-- The fallback-polling effect body (AskPage lines 55-77): arm the
interval exactly when `shouldPoll`, otherwise clear it. -/
def clientPollingEffect (s : ClientState) : ClientState :=
  if shouldPoll s then { s with polling := true }
  else { s with polling := false }

/-- One settled client transition: the event's handler followed by the
re-run of the fallback-polling effect. -/
def clientStep (s : ClientState) (e : ClientEvent) : ClientState :=
  clientPollingEffect (applyClientEvent e s)

/-- A settled client run: a sequence of events from some initial state. -/
def clientRun (s : ClientState) (es : List ClientEvent) : ClientState :=
  es.foldl clientStep s

/-! ### Lemmas about the map and set embeddings -/

theorem lookupA_append {α : Type} (m₁ m₂ : List (String × α)) (k : String) :
    lookupA (m₁ ++ m₂) k =
      match lookupA m₁ k with
      | some v => some v
      | none => lookupA m₂ k := by
  induction m₁ with
  | nil => simp [lookupA]
  | cons p rest ih =>
    by_cases hp : p.1 = k <;> simp [lookupA, hp, ih]

theorem lookupA_replace_self {α : Type} (m : List (String × α)) (k : String)
    (v : α) (h : (lookupA m k).isSome) :
    lookupA (m.map (fun p => if p.1 = k then (k, v) else p)) k = some v := by
  induction m with
  | nil => simp [lookupA] at h
  | cons p rest ih =>
    by_cases hp : p.1 = k
    · simp [lookupA, hp]
    · simp [lookupA, hp] at h ⊢
      exact ih h

theorem lookupA_replace_ne {α : Type} (m : List (String × α))
    (k k' : String) (v : α) (h : k' ≠ k) :
    lookupA (m.map (fun p => if p.1 = k then (k, v) else p)) k' =
      lookupA m k' := by
  induction m with
  | nil => simp [lookupA]
  | cons p rest ih =>
    by_cases hp : p.1 = k
    · have hkk : k ≠ k' := fun he => h he.symm
      simp [lookupA, hp, hkk, ih]
    · by_cases hp' : p.1 = k' <;> simp [lookupA, hp, hp', h, ih]

theorem lookupA_insertA_self {α : Type} (m : List (String × α)) (k : String)
    (v : α) : lookupA (insertA m k v) k = some v := by
  unfold insertA
  by_cases h : (lookupA m k).isSome
  · simp [h, lookupA_replace_self m k v h]
  · have hn : lookupA m k = none := by
      cases hl : lookupA m k
      · rfl
      · simp [hl] at h
    simp [h, lookupA_append, hn, lookupA]

theorem lookupA_insertA_ne {α : Type} (m : List (String × α))
    (k k' : String) (v : α) (h : k' ≠ k) :
    lookupA (insertA m k v) k' = lookupA m k' := by
  unfold insertA
  by_cases hs : (lookupA m k).isSome
  · simp [hs, lookupA_replace_ne m k k' v h]
  · cases hl : lookupA m k' with
    | none =>
      have hkk : ¬ k = k' := fun he => h he.symm
      simp [hs, lookupA_append, hl, lookupA, hkk]
    | some w => simp [hs, lookupA_append, hl]

theorem lookupA_eraseA {α : Type} (m : List (String × α)) (k k' : String) :
    lookupA (eraseA m k) k' = if k' = k then none else lookupA m k' := by
  induction m with
  | nil => simp [eraseA, lookupA]
  | cons p rest ih =>
    simp only [eraseA, List.filter_cons] at ih ⊢
    by_cases hpk : p.1 = k
    · by_cases hk : k' = k
      · simp only [hpk, hk] at ih ⊢
        simpa using ih
      · have hp' : ¬ p.1 = k' := by rw [hpk]; exact fun he => hk he.symm
        simp only [hpk, hk] at ih ⊢
        simp [lookupA, hp', hk, ih]
    · by_cases hp' : p.1 = k'
      · have hk : ¬ k' = k := by rw [← hp']; exact hpk
        simp [lookupA, hpk, hp', hk]
      · simp [lookupA, hpk, hp', ih]

theorem lookupA_mem {α : Type} {m : List (String × α)} {k : String}
    {v : α} (h : lookupA m k = some v) : (k, v) ∈ m := by
  induction m with
  | nil => simp [lookupA] at h
  | cons p rest ih =>
    by_cases hp : p.1 = k
    · simp only [lookupA, if_pos hp, Option.some.injEq] at h
      have hq : (k, v) = p := by
        rw [← hp, ← h]
      rw [hq]
      exact List.mem_cons_self p rest
    · simp only [lookupA, if_neg hp] at h
      exact List.mem_cons_of_mem _ (ih h)

theorem mem_insertA {α : Type} {m : List (String × α)} {k : String} {v : α}
    {q : String × α} (h : q ∈ insertA m k v) : q ∈ m ∨ q = (k, v) := by
  unfold insertA at h
  by_cases hs : (lookupA m k).isSome
  · rw [if_pos hs] at h
    obtain ⟨p, hp, hq⟩ := List.mem_map.mp h
    by_cases hpk : p.1 = k
    · right
      rw [← hq, if_pos hpk]
    · left
      rw [← hq, if_neg hpk]
      exact hp
  · rw [if_neg hs] at h
    rcases List.mem_append.mp h with h | h
    · exact Or.inl h
    · right
      simpa using h

theorem mem_eraseA {α : Type} {m : List (String × α)} {k : String}
    {q : String × α} (h : q ∈ eraseA m k) : q ∈ m ∧ q.1 ≠ k := by
  unfold eraseA at h
  have hf := List.mem_filter.mp h
  refine ⟨hf.1, ?_⟩
  have h2 := hf.2
  simpa using h2

theorem addConn_ne_nil (c : Conn) (l : List Conn) : addConn c l ≠ [] := by
  unfold addConn
  split
  · intro h
    subst h
    simp_all
  · simp

theorem mem_addConn_self (c : Conn) (l : List Conn) : c ∈ addConn c l := by
  unfold addConn
  split
  · assumption
  · simp

theorem addConn_mem_noop (c : Conn) (l : List Conn) (h : c ∈ l) :
    addConn c l = l := by
  simp [addConn, h]

theorem addConn_nodup (c : Conn) (l : List Conn) (h : l.Nodup) :
    (addConn c l).Nodup := by
  unfold addConn
  split
  · exact h
  · next hc =>
    refine List.Nodup.append h (List.nodup_singleton c) ?_
    intro x hx hxc
    rw [List.mem_singleton] at hxc
    subst hxc
    exact hc hx

theorem count_addConn_self (c : Conn) (l : List Conn) (h : l.Nodup) :
    (addConn c l).count c = 1 := by
  unfold addConn
  split
  · exact List.count_eq_one_of_mem h (by assumption)
  · simp [List.count_eq_zero_of_not_mem (by assumption : c ∉ l)]

/-! ### Lemmas about broadcasting and one poll iteration -/

theorem broadcastRunUpdate_eq (isOpen : Conn → Bool) (s : ServerState)
    (runId : String) (data : RunState) :
    broadcastRunUpdate isOpen s runId data =
      (s, (((lookupA s.subscriptions runId).getD []).filter isOpen).map
            (fun c => (c, (⟨"run_update", runId, data⟩ : WsMessage)))) := by
  unfold broadcastRunUpdate
  cases h : lookupA s.subscriptions runId with
  | none => simp
  | some clients =>
    by_cases hl : clients.length = 0
    · have : clients = [] := List.length_eq_zero.mp hl
      subst this
      simp
    · simp [hl]

theorem pollOneRun_subscriptions (isOpen : Conn → Bool)
    (fetchEnv : String → Option RunState) (acc : TickResult) (r : String) :
    (pollOneRun isOpen fetchEnv acc r).state.subscriptions =
      acc.state.subscriptions := by
  unfold pollOneRun
  split
  · rfl
  · split
    · rfl
    · split
      · simp [broadcastRunUpdate_eq]
      · rfl

theorem pollOneRun_cache_ne (isOpen : Conn → Bool)
    (fetchEnv : String → Option RunState) (acc : TickResult) (r r' : String)
    (h : r' ≠ r) :
    lookupA (pollOneRun isOpen fetchEnv acc r).state.runCache r' =
      lookupA acc.state.runCache r' := by
  unfold pollOneRun
  split
  · rfl
  · split
    · rfl
    · split
      · simp [broadcastRunUpdate_eq, lookupA_insertA_ne _ _ _ _ h]
      · rfl

theorem pollOneRun_cache_dead (isOpen : Conn → Bool)
    (fetchEnv : String → Option RunState) (acc : TickResult) (r : String)
    (h : isDemoRun r = true ∨ fetchEnv r = none) :
    (pollOneRun isOpen fetchEnv acc r).state.runCache =
      acc.state.runCache := by
  unfold pollOneRun
  rcases h with h | h
  · simp [h]
  · split
    · rfl
    · simp [pollRunStatus, h]

theorem pollOneRun_broadcasts (isOpen : Conn → Bool)
    (fetchEnv : String → Option RunState) (acc : TickResult) (r : String) :
    (pollOneRun isOpen fetchEnv acc r).broadcasts =
      acc.broadcasts ++
        (if isDemoRun r then []
         else match fetchEnv r with
           | none => []
           | some st =>
             if changedAgainst (lookupA acc.state.runCache r) st
             then [(r, st)] else []) := by
  unfold pollOneRun
  by_cases hd : isDemoRun r
  · simp [hd]
  · simp only [hd, if_neg, Bool.false_eq_true, reduceIte]
    cases hf : fetchEnv r with
    | none => simp [pollRunStatus, hf]
    | some st =>
      by_cases hc : changedAgainst (lookupA acc.state.runCache r) st
      · simp [pollRunStatus, hf, hasRunStateChanged, hc]
      · simp [pollRunStatus, hf, hasRunStateChanged, hc]

theorem pollOneRun_fetches (isOpen : Conn → Bool)
    (fetchEnv : String → Option RunState) (acc : TickResult) (r : String) :
    (pollOneRun isOpen fetchEnv acc r).fetches =
      acc.fetches ++ (if isDemoRun r then [] else [r]) := by
  unfold pollOneRun
  by_cases hd : isDemoRun r
  · simp [hd]
  · simp only [hd, Bool.false_eq_true, reduceIte]
    cases hf : fetchEnv r with
    | none => simp [pollRunStatus, hf]
    | some st =>
      by_cases hc : hasRunStateChanged acc.state r st
      · simp [pollRunStatus, hf, hc]
      · simp [pollRunStatus, hf, hc]

theorem pollOneRun_scheduled (isOpen : Conn → Bool)
    (fetchEnv : String → Option RunState) (acc : TickResult) (r : String) :
    (pollOneRun isOpen fetchEnv acc r).scheduled =
      acc.scheduled ++
        (if isDemoRun r then []
         else match fetchEnv r with
           | none => []
           | some st =>
             if changedAgainst (lookupA acc.state.runCache r) st
             then (if st.status = "completed" then [(r, 5000)] else [])
             else []) := by
  unfold pollOneRun
  by_cases hd : isDemoRun r
  · simp [hd]
  · simp only [hd, Bool.false_eq_true, reduceIte]
    cases hf : fetchEnv r with
    | none => simp [pollRunStatus, hf]
    | some st =>
      by_cases hc : changedAgainst (lookupA acc.state.runCache r) st
      · simp [pollRunStatus, hf, hasRunStateChanged, hc]
      · simp [pollRunStatus, hf, hasRunStateChanged, hc]

theorem broadcastCount_pollOneRun_self (isOpen : Conn → Bool)
    (fetchEnv : String → Option RunState) (acc : TickResult) (r : String) :
    broadcastCount (pollOneRun isOpen fetchEnv acc r) r =
      broadcastCount acc r +
        tickOutcome fetchEnv (lookupA acc.state.runCache r) r := by
  simp only [broadcastCount, pollOneRun_broadcasts, tickOutcome,
    List.filter_append, List.length_append]
  by_cases hd : isDemoRun r
  · simp [hd]
  · simp only [hd, Bool.false_eq_true, reduceIte]
    cases hf : fetchEnv r with
    | none => simp
    | some st =>
      by_cases hc : changedAgainst (lookupA acc.state.runCache r) st
      · simp [hc]
      · simp [hc]

theorem broadcastCount_pollOneRun_ne (isOpen : Conn → Bool)
    (fetchEnv : String → Option RunState) (acc : TickResult) (r r' : String)
    (h : r' ≠ r) :
    broadcastCount (pollOneRun isOpen fetchEnv acc r) r' =
      broadcastCount acc r' := by
  simp only [broadcastCount, pollOneRun_broadcasts, List.filter_append,
    List.length_append]
  have hrr : (r == r') = false := by
    simp [Ne.symm h]
  by_cases hd : isDemoRun r
  · simp [hd]
  · simp only [hd, Bool.false_eq_true, reduceIte]
    cases hf : fetchEnv r with
    | none => simp
    | some st =>
      by_cases hc : changedAgainst (lookupA acc.state.runCache r) st
      · simp [hc, hrr]
      · simp [hc]

/-! ### Lemmas about a whole poll tick -/

theorem foldl_pollOneRun_subscriptions (isOpen : Conn → Bool)
    (fetchEnv : String → Option RunState) (l : List String)
    (acc : TickResult) :
    ((l.foldl (pollOneRun isOpen fetchEnv) acc).state).subscriptions =
      acc.state.subscriptions := by
  induction l generalizing acc with
  | nil => rfl
  | cons a l ih =>
    rw [List.foldl_cons, ih, pollOneRun_subscriptions]

theorem foldl_pollOneRun_cache_not_mem (isOpen : Conn → Bool)
    (fetchEnv : String → Option RunState) (l : List String)
    (acc : TickResult) (r : String) (h : r ∉ l) :
    lookupA ((l.foldl (pollOneRun isOpen fetchEnv) acc).state).runCache r =
      lookupA acc.state.runCache r := by
  induction l generalizing acc with
  | nil => rfl
  | cons a l ih =>
    have hra : r ≠ a := fun he => h (he ▸ List.mem_cons_self a l)
    have hl : r ∉ l := fun hm => h (List.mem_cons_of_mem a hm)
    rw [List.foldl_cons, ih _ hl, pollOneRun_cache_ne _ _ _ _ _ hra]

theorem foldl_pollOneRun_count_not_mem (isOpen : Conn → Bool)
    (fetchEnv : String → Option RunState) (l : List String)
    (acc : TickResult) (r : String) (h : r ∉ l) :
    broadcastCount (l.foldl (pollOneRun isOpen fetchEnv) acc) r =
      broadcastCount acc r := by
  induction l generalizing acc with
  | nil => rfl
  | cons a l ih =>
    have hra : r ≠ a := fun he => h (he ▸ List.mem_cons_self a l)
    have hl : r ∉ l := fun hm => h (List.mem_cons_of_mem a hm)
    rw [List.foldl_cons, ih _ hl, broadcastCount_pollOneRun_ne _ _ _ _ _ hra]

theorem foldl_pollOneRun_dead (isOpen : Conn → Bool)
    (fetchEnv : String → Option RunState) (l : List String)
    (acc : TickResult) (r : String)
    (h : isDemoRun r = true ∨ fetchEnv r = none) :
    broadcastCount (l.foldl (pollOneRun isOpen fetchEnv) acc) r =
        broadcastCount acc r ∧
      lookupA ((l.foldl (pollOneRun isOpen fetchEnv) acc).state).runCache r =
        lookupA acc.state.runCache r := by
  induction l generalizing acc with
  | nil => exact ⟨rfl, rfl⟩
  | cons a l ih =>
    rw [List.foldl_cons]
    by_cases hra : r = a
    · subst hra
      have hcount : broadcastCount (pollOneRun isOpen fetchEnv acc r) r =
          broadcastCount acc r := by
        rw [broadcastCount_pollOneRun_self]
        have : tickOutcome fetchEnv (lookupA acc.state.runCache r) r = 0 := by
          rcases h with h | h
          · simp [tickOutcome, h]
          · simp [tickOutcome, h]
        omega
      have hcache := pollOneRun_cache_dead isOpen fetchEnv acc r h
      obtain ⟨ih1, ih2⟩ := ih (pollOneRun isOpen fetchEnv acc r)
      exact ⟨ih1.trans hcount, ih2.trans (by rw [hcache])⟩
    · obtain ⟨ih1, ih2⟩ := ih (pollOneRun isOpen fetchEnv acc a)
      refine ⟨ih1.trans ?_, ih2.trans ?_⟩
      · exact broadcastCount_pollOneRun_ne _ _ _ _ _ hra
      · exact pollOneRun_cache_ne _ _ _ _ _ hra

theorem foldl_pollOneRun_count_mem (isOpen : Conn → Bool)
    (fetchEnv : String → Option RunState) (l : List String)
    (acc : TickResult) (r : String) (hnd : l.Nodup) (hr : r ∈ l) :
    broadcastCount (l.foldl (pollOneRun isOpen fetchEnv) acc) r =
      broadcastCount acc r +
        tickOutcome fetchEnv (lookupA acc.state.runCache r) r := by
  induction l generalizing acc with
  | nil => simp at hr
  | cons a l ih =>
    rw [List.foldl_cons]
    rcases List.mem_cons.mp hr with hra | hrl
    · subst hra
      have hnl : r ∉ l := (List.nodup_cons.mp hnd).1
      rw [foldl_pollOneRun_count_not_mem _ _ _ _ _ hnl,
        broadcastCount_pollOneRun_self]
    · have hra : r ≠ a := by
        intro he
        subst he
        exact (List.nodup_cons.mp hnd).1 hrl
      rw [ih _ (List.nodup_cons.mp hnd).2 hrl,
        broadcastCount_pollOneRun_ne _ _ _ _ _ hra,
        pollOneRun_cache_ne _ _ _ _ _ hra]

theorem foldl_pollOneRun_fetches (isOpen : Conn → Bool)
    (fetchEnv : String → Option RunState) (l : List String)
    (acc : TickResult) :
    (l.foldl (pollOneRun isOpen fetchEnv) acc).fetches =
      acc.fetches ++ l.filter (fun r => !(isDemoRun r)) := by
  induction l generalizing acc with
  | nil => simp
  | cons a l ih =>
    rw [List.foldl_cons, ih, pollOneRun_fetches, List.filter_cons]
    by_cases hd : isDemoRun a
    · simp [hd]
    · simp [hd]

theorem foldl_pollOneRun_completed_scheduled (isOpen : Conn → Bool)
    (fetchEnv : String → Option RunState) (l : List String)
    (acc : TickResult)
    (hinv : ∀ p ∈ acc.broadcasts, p.2.status = "completed" →
      (p.1, 5000) ∈ acc.scheduled) :
    ∀ p ∈ (l.foldl (pollOneRun isOpen fetchEnv) acc).broadcasts,
      p.2.status = "completed" →
        (p.1, 5000) ∈ (l.foldl (pollOneRun isOpen fetchEnv) acc).scheduled := by
  induction l generalizing acc with
  | nil => exact hinv
  | cons a l ih =>
    rw [List.foldl_cons]
    refine ih _ ?_
    intro p hp hst
    rw [pollOneRun_broadcasts] at hp
    rw [pollOneRun_scheduled]
    rcases List.mem_append.mp hp with hp | hp
    · exact List.mem_append_left _ (hinv p hp hst)
    · refine List.mem_append_right _ ?_
      by_cases hd : isDemoRun a
      · simp [hd] at hp
      · simp only [hd, Bool.false_eq_true, reduceIte] at hp ⊢
        cases hf : fetchEnv a with
        | none => simp [hf] at hp
        | some st =>
          simp only [hf] at hp ⊢
          by_cases hc : changedAgainst (lookupA acc.state.runCache a) st
          · simp only [hc, reduceIte, List.mem_singleton] at hp ⊢
            subst hp
            simp only at hst
            simp [hst]
          · simp [hc] at hp

theorem changedAgainst_some_iff (c n : RunState) :
    changedAgainst (some c) n = false ↔ c = n := by
  cases c with | mk cs cc ca cv ce =>
  cases n with | mk ns nc na nv ne =>
  simp only [changedAgainst, RunState.mk.injEq]
  by_cases h1 : cs = ns <;> by_cases h2 : cc = nc <;>
    by_cases h3 : ca = na <;> by_cases h4 : cv = nv <;>
    by_cases h5 : ce = ne <;> simp [h1, h2, h3, h4, h5]

theorem lookupA_isSome_of_mem_keys {α : Type} {m : List (String × α)}
    {k : String} (h : k ∈ m.map Prod.fst) : (lookupA m k).isSome := by
  induction m with
  | nil => simp at h
  | cons p rest ih =>
    by_cases hp : p.1 = k
    · simp [lookupA, hp]
    · simp only [List.map_cons, List.mem_cons] at h
      rcases h with h | h
      · exact absurd h.symm hp
      · simp only [lookupA, if_neg hp]
        exact ih h

theorem mem_getActiveRunIds (s : ServerState) (r : String) :
    r ∈ getActiveRunIds s ↔
      r ∈ s.subscriptions.map Prod.fst ∧ 0 < getSubscriptionCount s r := by
  simp [getActiveRunIds, List.mem_filter]

theorem getActiveRunIds_nodup (s : ServerState) (hk : KeysNodup s) :
    (getActiveRunIds s).Nodup :=
  hk.filter _

theorem pollActiveRuns_subscriptions (isOpen : Conn → Bool)
    (fetchEnv : String → Option RunState) (s : ServerState) :
    (pollActiveRuns isOpen fetchEnv s).state.subscriptions =
      s.subscriptions := by
  unfold pollActiveRuns
  exact foldl_pollOneRun_subscriptions isOpen fetchEnv _ _

theorem pollActiveRuns_count_active (isOpen : Conn → Bool)
    (fetchEnv : String → Option RunState) (s : ServerState) (r : String)
    (hk : KeysNodup s) (hr : r ∈ getActiveRunIds s) :
    broadcastCount (pollActiveRuns isOpen fetchEnv s) r =
      tickOutcome fetchEnv (lookupA s.runCache r) r := by
  unfold pollActiveRuns
  have h := foldl_pollOneRun_count_mem isOpen fetchEnv (getActiveRunIds s)
    ⟨s, [], [], [], []⟩ r (getActiveRunIds_nodup s hk) hr
  simpa [broadcastCount] using h

theorem pollActiveRuns_count_inactive (isOpen : Conn → Bool)
    (fetchEnv : String → Option RunState) (s : ServerState) (r : String)
    (hr : r ∉ getActiveRunIds s) :
    broadcastCount (pollActiveRuns isOpen fetchEnv s) r = 0 := by
  unfold pollActiveRuns
  have h := foldl_pollOneRun_count_not_mem isOpen fetchEnv (getActiveRunIds s)
    ⟨s, [], [], [], []⟩ r hr
  simpa [broadcastCount] using h

theorem pollActiveRuns_dead (isOpen : Conn → Bool)
    (fetchEnv : String → Option RunState) (s : ServerState) (r : String)
    (h : isDemoRun r = true ∨ fetchEnv r = none) :
    broadcastCount (pollActiveRuns isOpen fetchEnv s) r = 0 ∧
      lookupA (pollActiveRuns isOpen fetchEnv s).state.runCache r =
        lookupA s.runCache r := by
  unfold pollActiveRuns
  have hd := foldl_pollOneRun_dead isOpen fetchEnv (getActiveRunIds s)
    ⟨s, [], [], [], []⟩ r h
  constructor
  · simpa [broadcastCount] using hd.1
  · exact hd.2

theorem pollActiveRuns_fetches (isOpen : Conn → Bool)
    (fetchEnv : String → Option RunState) (s : ServerState) :
    (pollActiveRuns isOpen fetchEnv s).fetches =
      (getActiveRunIds s).filter (fun r => !(isDemoRun r)) := by
  unfold pollActiveRuns
  have h := foldl_pollOneRun_fetches isOpen fetchEnv (getActiveRunIds s)
    ⟨s, [], [], [], []⟩
  simpa using h

theorem pollActiveRuns_completed_scheduled (isOpen : Conn → Bool)
    (fetchEnv : String → Option RunState) (s : ServerState) :
    ∀ p ∈ (pollActiveRuns isOpen fetchEnv s).broadcasts,
      p.2.status = "completed" →
        (p.1, 5000) ∈ (pollActiveRuns isOpen fetchEnv s).scheduled := by
  unfold pollActiveRuns
  refine foldl_pollOneRun_completed_scheduled isOpen fetchEnv _ _ ?_
  intro p hp
  simp at hp

/-! ### Claim theorems -/

/-- C1: for a polled active (non-demo) run with a cached snapshot, fetching
a state structurally identical to the snapshot (all five compared fields
equal, i.e. the states are equal) triggers zero broadcasts in the tick, and
fetching a state that differs in any field triggers exactly one; with no
cached snapshot, any fetched state triggers exactly one broadcast. -/
theorem spec_c1_change_suppression (isOpen : Conn → Bool)
    (fetchEnv : String → Option RunState) (s : ServerState) (r : String)
    (hk : KeysNodup s) (hr : r ∈ getActiveRunIds s)
    (hd : isDemoRun r = false) :
    (∀ c n, lookupA s.runCache r = some c → fetchEnv r = some n →
      broadcastCount (pollActiveRuns isOpen fetchEnv s) r =
        if c = n then 0 else 1) ∧
    (∀ n, lookupA s.runCache r = none → fetchEnv r = some n →
      broadcastCount (pollActiveRuns isOpen fetchEnv s) r = 1) := by
  constructor
  · intro c n hc hf
    rw [pollActiveRuns_count_active _ _ _ _ hk hr]
    simp only [tickOutcome, hd, Bool.false_eq_true, reduceIte, hc, hf]
    by_cases he : c = n
    · subst he
      have hch : changedAgainst (some c) c = false :=
        (changedAgainst_some_iff c c).mpr rfl
      simp [hch]
    · have hch : changedAgainst (some c) n = true := by
        cases hcc : changedAgainst (some c) n
        · exact absurd ((changedAgainst_some_iff c n).mp hcc) he
        · rfl
      simp [hch, he]
  · intro n hc hf
    rw [pollActiveRuns_count_active _ _ _ _ hk hr]
    simp [tickOutcome, hd, hc, hf, changedAgainst]

/-- Witness for C1 at a concrete state: one subscriber on `"run_a"`, a
cached `in_progress` snapshot, and a fetch returning a different state:
exactly one broadcast. -/
theorem spec_c1_witness :
    KeysNodup ⟨[("run_a", [0])], [("run_a", stInProgress)]⟩ ∧
    "run_a" ∈ getActiveRunIds ⟨[("run_a", [0])], [("run_a", stInProgress)]⟩ ∧
    isDemoRun "run_a" = false ∧
    broadcastCount (pollActiveRuns (fun _ => true) (fun _ => some stCompleted)
      ⟨[("run_a", [0])], [("run_a", stInProgress)]⟩) "run_a" = 1 := by
  refine ⟨by decide, by decide, by decide, ?_⟩
  have h := (spec_c1_change_suppression (fun _ => true)
    (fun _ => some stCompleted) ⟨[("run_a", [0])], [("run_a", stInProgress)]⟩
    "run_a" (by decide) (by decide) (by decide)).1 stInProgress stCompleted
    (by decide) rfl
  rw [if_neg (by decide)] at h
  exact h

/-- C3: a failed fetch (network error, timeout or non-2xx) for one run
leaves that run's cache entry untouched and broadcasts nothing for it, while
every non-demo active run is still fetched in the same tick and its
broadcast outcome is the same function of its own fetch result and cached
snapshot — in particular it is unchanged under replacing the environment by
any environment that agrees on that run. -/
theorem spec_c3_failure_isolation (isOpen : Conn → Bool)
    (fetchEnv : String → Option RunState) (s : ServerState) (rA : String)
    (hk : KeysNodup s) (hA : fetchEnv rA = none) :
    lookupA (pollActiveRuns isOpen fetchEnv s).state.runCache rA =
      lookupA s.runCache rA ∧
    broadcastCount (pollActiveRuns isOpen fetchEnv s) rA = 0 ∧
    (∀ rB, rB ∈ getActiveRunIds s → isDemoRun rB = false →
      rB ∈ (pollActiveRuns isOpen fetchEnv s).fetches ∧
      broadcastCount (pollActiveRuns isOpen fetchEnv s) rB =
        tickOutcome fetchEnv (lookupA s.runCache rB) rB ∧
      (∀ fetchEnv' : String → Option RunState, fetchEnv' rB = fetchEnv rB →
        broadcastCount (pollActiveRuns isOpen fetchEnv' s) rB =
          broadcastCount (pollActiveRuns isOpen fetchEnv s) rB)) := by
  refine ⟨(pollActiveRuns_dead _ _ _ _ (Or.inr hA)).2,
    (pollActiveRuns_dead _ _ _ _ (Or.inr hA)).1, ?_⟩
  intro rB hrB hdB
  refine ⟨?_, pollActiveRuns_count_active _ _ _ _ hk hrB, ?_⟩
  · rw [pollActiveRuns_fetches]
    exact List.mem_filter.mpr ⟨hrB, by simp [hdB]⟩
  · intro fetchEnv' hagree
    rw [pollActiveRuns_count_active _ _ _ _ hk hrB,
      pollActiveRuns_count_active _ _ _ _ hk hrB]
    simp [tickOutcome, hagree]

/-- Witness for C3: the fetch for `"run_a"` fails while `"run_b"` (with its
own subscriber) is still fetched and broadcast in the same tick. -/
theorem spec_c3_witness :
    KeysNodup ⟨[("run_a", [0]), ("run_b", [1])], []⟩ ∧
    (fun r => if r = "run_b" then some stCompleted else none) "run_a"
      = none ∧
    "run_b" ∈ getActiveRunIds ⟨[("run_a", [0]), ("run_b", [1])], []⟩ ∧
    isDemoRun "run_b" = false ∧
    broadcastCount (pollActiveRuns (fun _ => true)
      (fun r => if r = "run_b" then some stCompleted else none)
      ⟨[("run_a", [0]), ("run_b", [1])], []⟩) "run_a" = 0 ∧
    "run_b" ∈ (pollActiveRuns (fun _ => true)
      (fun r => if r = "run_b" then some stCompleted else none)
      ⟨[("run_a", [0]), ("run_b", [1])], []⟩).fetches := by
  have h := spec_c3_failure_isolation (fun _ => true)
    (fun r => if r = "run_b" then some stCompleted else none)
    ⟨[("run_a", [0]), ("run_b", [1])], []⟩ "run_a" (by decide) (by decide)
  exact ⟨by decide, by decide, by decide, by decide, h.2.1,
    (h.2.2 "run_b" (by decide) (by decide)).1⟩

/-- C6: whenever a `completed` state is broadcast for a run in a tick, an
eviction of that run's snapshot with delay 5000 ms is scheduled in the same
tick, and firing that eviction deletes the snapshot from any state whatever
while leaving every subscriber set untouched (so it acts regardless of which
subscribers remain). -/
theorem spec_c6_completed_eviction (isOpen : Conn → Bool)
    (fetchEnv : String → Option RunState) (s : ServerState) (r : String)
    (st : RunState)
    (hb : (r, st) ∈ (pollActiveRuns isOpen fetchEnv s).broadcasts)
    (hst : st.status = "completed") :
    (r, 5000) ∈ (pollActiveRuns isOpen fetchEnv s).scheduled ∧
    (∀ s' : ServerState, lookupA (fireEviction r s').runCache r = none ∧
      (fireEviction r s').subscriptions = s'.subscriptions) := by
  refine ⟨pollActiveRuns_completed_scheduled _ _ _ (r, st) hb hst, ?_⟩
  intro s'
  constructor
  · simp [fireEviction, lookupA_eraseA]
  · rfl

/-- Witness for C6: a tick that broadcasts a `completed` state for
`"run_a"` schedules `("run_a", 5000)`, and firing the eviction on the
tick's final state removes the snapshot. -/
theorem spec_c6_witness :
    ("run_a", stCompleted) ∈ (pollActiveRuns (fun _ => true)
      (fun _ => some stCompleted) ⟨[("run_a", [0])], []⟩).broadcasts ∧
    stCompleted.status = "completed" ∧
    ("run_a", 5000) ∈ (pollActiveRuns (fun _ => true)
      (fun _ => some stCompleted) ⟨[("run_a", [0])], []⟩).scheduled ∧
    lookupA (fireEviction "run_a" (pollActiveRuns (fun _ => true)
      (fun _ => some stCompleted) ⟨[("run_a", [0])], []⟩).state).runCache
      "run_a" = none := by
  have h := spec_c6_completed_eviction (fun _ => true)
    (fun _ => some stCompleted) ⟨[("run_a", [0])], []⟩ "run_a" stCompleted
    (by decide) (by decide)
  exact ⟨by decide, by decide, h.1, (h.2 _).1⟩

/-- C7: a run id carrying the reserved demo prefix is never fetched by a
poll tick, whatever the state (and hence however many subscribers it has)
and whatever the environment. -/
theorem spec_c7_demo_exclusion (isOpen : Conn → Bool)
    (fetchEnv : String → Option RunState) (s : ServerState) (r : String)
    (hd : isDemoRun r = true) :
    r ∉ (pollActiveRuns isOpen fetchEnv s).fetches := by
  rw [pollActiveRuns_fetches]
  intro hmem
  have h := List.mem_filter.mp hmem
  simp [hd] at h

/-- Witness for C7: `"demo_run_1"` has a subscriber yet is not fetched. -/
theorem spec_c7_witness :
    isDemoRun "demo_run_1" = true ∧
    0 < getSubscriptionCount ⟨[("demo_run_1", [0])], []⟩ "demo_run_1" ∧
    "demo_run_1" ∉ (pollActiveRuns (fun _ => true)
      (fun _ => some stInProgress) ⟨[("demo_run_1", [0])], []⟩).fetches :=
  ⟨by decide, by decide,
    spec_c7_demo_exclusion (fun _ => true) (fun _ => some stInProgress)
      ⟨[("demo_run_1", [0])], []⟩ "demo_run_1" (by decide)⟩

/-- C9: a broadcast leaves the subscription registry and the run cache
unchanged, and its sends are exactly one copy of the single envelope
`⟨"run_update", runId, data⟩` to each subscribed connection whose transport
is open (closed connections are skipped, no connection outside the
subscriber set receives anything). -/
theorem spec_c9_broadcast_frame (isOpen : Conn → Bool) (s : ServerState)
    (runId : String) (data : RunState) :
    (broadcastRunUpdate isOpen s runId data).1 = s ∧
    (broadcastRunUpdate isOpen s runId data).2 =
      (((lookupA s.subscriptions runId).getD []).filter isOpen).map
        (fun c => (c, (⟨"run_update", runId, data⟩ : WsMessage))) := by
  rw [broadcastRunUpdate_eq]
  exact ⟨rfl, rfl⟩

/-! ### Lemmas for idempotent subscribe and registry invariants -/

theorem lookupA_none_iff {α : Type} (m : List (String × α)) (k : String) :
    lookupA m k = none ↔ ∀ p ∈ m, p.1 ≠ k := by
  induction m with
  | nil => simp [lookupA]
  | cons p rest ih =>
    by_cases hp : p.1 = k
    · simp [lookupA, hp]
    · simp [lookupA, hp, ih]

theorem mem_insertA_strong {α : Type} {m : List (String × α)} {k : String}
    {v : α} {q : String × α} (h : q ∈ insertA m k v) :
    (q ∈ m ∧ q.1 ≠ k) ∨ q = (k, v) := by
  unfold insertA at h
  by_cases hs : (lookupA m k).isSome
  · rw [if_pos hs] at h
    obtain ⟨p, hp, hq⟩ := List.mem_map.mp h
    by_cases hpk : p.1 = k
    · right
      rw [← hq, if_pos hpk]
    · left
      rw [← hq, if_neg hpk]
      exact ⟨hp, hpk⟩
  · rw [if_neg hs] at h
    have hn : lookupA m k = none := by
      cases hl : lookupA m k
      · rfl
      · simp [hl] at hs
    rcases List.mem_append.mp h with h | h
    · exact Or.inl ⟨h, (lookupA_none_iff m k).mp hn q h⟩
    · right
      simpa using h

theorem map_replace_eq_self {α : Type} (m : List (String × α)) (k : String)
    (v : α) (hall : ∀ q ∈ m, q.1 = k → q = (k, v)) :
    m.map (fun p => if p.1 = k then (k, v) else p) = m := by
  induction m with
  | nil => simp
  | cons p rest ih =>
    simp only [List.map_cons]
    have hh : (if p.1 = k then (k, v) else p) = p := by
      by_cases hp : p.1 = k
      · rw [if_pos hp]
        exact (hall p (List.mem_cons_self p rest) hp).symm
      · rw [if_neg hp]
    rw [hh, ih fun q hq hqk => hall q (List.mem_cons_of_mem _ hq) hqk]

theorem insertA_eq_self_of {α : Type} (m : List (String × α)) (k : String)
    (v : α) (hs : (lookupA m k).isSome)
    (hall : ∀ q ∈ m, q.1 = k → q = (k, v)) : insertA m k v = m := by
  unfold insertA
  rw [if_pos hs]
  exact map_replace_eq_self m k v hall

theorem insertA_idem {α : Type} (m : List (String × α)) (k : String)
    (v : α) : insertA (insertA m k v) k v = insertA m k v := by
  refine insertA_eq_self_of _ _ _ (by rw [lookupA_insertA_self]; rfl) ?_
  intro q hq hqk
  rcases mem_insertA_strong hq with ⟨_, hne⟩ | he
  · exact absurd hqk hne
  · exact he

theorem addConn_idem (c : Conn) (l : List Conn) :
    addConn c (addConn c l) = addConn c l :=
  addConn_mem_noop c _ (mem_addConn_self c l)

theorem subscribeToRun_idem (s : ServerState) (r : String) (c : Conn) :
    subscribeToRun (subscribeToRun s r c) r c = subscribeToRun s r c := by
  simp only [subscribeToRun]
  rw [lookupA_insertA_self]
  simp only [Option.getD_some]
  rw [addConn_idem, insertA_idem]

theorem count_filter_of_true {l : List Conn} {p : Conn → Bool} {c : Conn}
    (h : p c = true) : (l.filter p).count c = l.count c := by
  induction l with
  | nil => rfl
  | cons a l ih =>
    by_cases hpa : p a
    · simp [List.filter_cons, hpa, List.count_cons, ih]
    · have hac : (a == c) = false := by
        by_cases hac : a = c
        · subst hac
          exact absurd h hpa
        · simpa using hac
      simp [List.filter_cons, hpa, List.count_cons, ih, hac]

/-- C8: subscribing the same connection to the same run twice is the same
state as subscribing once (the operation is total, so no error is raised),
the resulting subscriber set holds exactly one membership for the
connection, and a subsequent broadcast for the run delivers exactly one
copy to that (open) connection. -/
theorem spec_c8_idempotent_subscribe (s : ServerState) (r : String)
    (c : Conn) (isOpen : Conn → Bool) (st : RunState)
    (hsn : SubsNodup s) (hopen : isOpen c = true) :
    subscribeToRun (subscribeToRun s r c) r c = subscribeToRun s r c ∧
    ((lookupA (subscribeToRun (subscribeToRun s r c) r c).subscriptions
        r).getD []).count c = 1 ∧
    ((broadcastRunUpdate isOpen (subscribeToRun (subscribeToRun s r c) r c)
        r st).2.map Prod.fst).count c = 1 := by
  have hidem := subscribeToRun_idem s r c
  have hnodup : ((lookupA s.subscriptions r).getD []).Nodup := by
    cases hl : lookupA s.subscriptions r with
    | none => simp
    | some l => simpa using hsn (r, l) (lookupA_mem hl)
  have hclients : lookupA (subscribeToRun s r c).subscriptions r =
      some (addConn c ((lookupA s.subscriptions r).getD [])) := by
    simp only [subscribeToRun]
    exact lookupA_insertA_self _ _ _
  have hcount :
      ((lookupA (subscribeToRun s r c).subscriptions r).getD []).count c
        = 1 := by
    rw [hclients]
    simpa using count_addConn_self c _ hnodup
  refine ⟨hidem, by rw [hidem]; exact hcount, ?_⟩
  rw [hidem, broadcastRunUpdate_eq]
  simp only [List.map_map]
  have hcomp : (Prod.fst ∘ fun x : Conn =>
      (x, (⟨"run_update", r, st⟩ : WsMessage))) = id := rfl
  rw [hcomp, List.map_id, hclients]
  simp only [Option.getD_some]
  rw [count_filter_of_true hopen]
  exact count_addConn_self c _ hnodup

/-- Witness for C8 at the empty registry: double subscribe leaves one
membership and one delivered copy. -/
theorem spec_c8_witness :
    SubsNodup (⟨[], []⟩ : ServerState) ∧
    ((lookupA (subscribeToRun (subscribeToRun ⟨[], []⟩ "run_a" 0) "run_a"
        0).subscriptions "run_a").getD []).count 0 = 1 ∧
    ((broadcastRunUpdate (fun _ => true)
        (subscribeToRun (subscribeToRun ⟨[], []⟩ "run_a" 0) "run_a" 0)
        "run_a" stInProgress).2.map Prod.fst).count 0 = 1 := by
  have h := spec_c8_idempotent_subscribe ⟨[], []⟩ "run_a" 0 (fun _ => true)
    stInProgress (by decide) rfl
  exact ⟨by decide, h.2.1, h.2.2⟩

/-- C10: assuming every stored subscriber set is non-empty, the three
registry operations preserve that invariant (subscribe only adds, and both
unsubscribe and the disconnect sweep delete a set the moment it becomes
empty), `getActiveRunIds` equals the registry's full key set, and
`getSubscriptionCount` is zero exactly for absent keys. -/
theorem spec_c10_nonempty_sets (s : ServerState) (r : String) (c : Conn)
    (h : NonEmptySubs s) :
    NonEmptySubs (subscribeToRun s r c) ∧
    NonEmptySubs (unsubscribeFromRun s r c) ∧
    NonEmptySubs (onDisconnect c s) ∧
    getActiveRunIds s = s.subscriptions.map Prod.fst ∧
    (getSubscriptionCount s r = 0 ↔ lookupA s.subscriptions r = none) := by
  refine ⟨?_, ?_, ?_, ?_, ?_⟩
  · intro p hp
    simp only [subscribeToRun] at hp
    rcases mem_insertA_strong hp with ⟨hm, _⟩ | he
    · exact h p hm
    · rw [he]
      exact addConn_ne_nil c _
  · intro p hp
    cases hl : lookupA s.subscriptions r with
    | none => 
      simp only [unsubscribeFromRun, hl] at hp
      exact h p hp
    | some clients =>
      simp only [unsubscribeFromRun, hl] at hp
      by_cases hlen : (removeConn c clients).length = 0
      · rw [if_pos hlen] at hp
        exact h p (mem_eraseA hp).1
      · rw [if_neg hlen] at hp
        rcases mem_insertA_strong hp with ⟨hm, _⟩ | he
        · exact h p hm
        · rw [he]
          intro hnil
          exact hlen (by rw [show (r, removeConn c clients).2 = removeConn c clients from rfl] at hnil; rw [hnil]; rfl)
  · intro p hp
    simp only [onDisconnect, sweepConn] at hp
    rcases List.mem_filterMap.mp hp with ⟨q, hq, hsome⟩
    by_cases hlen : (removeConn c q.2).length = 0
    · simp [hlen] at hsome
    · simp only [hlen, if_neg, reduceIte] at hsome
      rw [← Option.some.injEq] at hsome
      have hpq : p = (q.1, removeConn c q.2) := by
        simpa using hsome.symm
      rw [hpq]
      intro hnil
      exact hlen (by rw [show (q.1, removeConn c q.2).2 = removeConn c q.2 from rfl] at hnil; rw [hnil]; rfl)
  · unfold getActiveRunIds
    apply List.filter_eq_self.mpr
    intro a ha
    simp only [decide_eq_true_eq]
    have hsome := lookupA_isSome_of_mem_keys ha
    cases hl : lookupA s.subscriptions a with
    | none => rw [hl] at hsome; simp at hsome
    | some l =>
      have hne := h (a, l) (lookupA_mem hl)
      unfold getSubscriptionCount
      rw [hl]
      simpa [List.length_pos] using hne
  · unfold getSubscriptionCount
    cases hl : lookupA s.subscriptions r with
    | none => simp
    | some l =>
      have hne := h (r, l) (lookupA_mem hl)
      simp [List.length_eq_zero, hne]

/-- Witness for C10 at a concrete one-run registry. -/
theorem spec_c10_witness :
    NonEmptySubs (⟨[("run_a", [0])], []⟩ : ServerState) ∧
    getActiveRunIds ⟨[("run_a", [0])], []⟩ =
      (⟨[("run_a", [0])], []⟩ : ServerState).subscriptions.map Prod.fst ∧
    (getSubscriptionCount ⟨[("run_a", [0])], []⟩ "run_b" = 0 ↔
      lookupA (⟨[("run_a", [0])], []⟩ : ServerState).subscriptions "run_b"
        = none) := by
  have h := spec_c10_nonempty_sets ⟨[("run_a", [0])], []⟩ "run_b" 1
    (by decide)
  exact ⟨by decide, h.2.2.2.1, h.2.2.2.2⟩

/-! ### The client single-delivery-path invariant -/

theorem clientPollingEffect_polling (s : ClientState) :
    (clientPollingEffect s).polling = shouldPoll s := by
  unfold clientPollingEffect
  split
  · next h => exact h.symm
  · next h =>
    cases hs : shouldPoll s
    · rfl
    · exact absurd hs h

theorem clientPollingEffect_frame (s : ClientState) :
    (clientPollingEffect s).runId = s.runId ∧
    (clientPollingEffect s).isDemo = s.isDemo ∧
    (clientPollingEffect s).runStatus = s.runStatus ∧
    (clientPollingEffect s).isConnected = s.isConnected := by
  unfold clientPollingEffect
  split <;> exact ⟨rfl, rfl, rfl, rfl⟩

theorem clientStep_single_path (s : ClientState) (e : ClientEvent)
    (h1 : (clientStep s e).runId.isSome = true)
    (h2 : (clientStep s e).isDemo = false)
    (h3 : (clientStep s e).runStatus ≠ "completed") :
    ((clientStep s e).isConnected = true ∧ (clientStep s e).polling = false)
    ∨ ((clientStep s e).isConnected = false ∧
        (clientStep s e).polling = true) := by
  unfold clientStep at *
  obtain ⟨hr, hd, hst, hc⟩ := clientPollingEffect_frame (applyClientEvent e s)
  rw [hr] at h1
  rw [hd] at h2
  rw [hst] at h3
  rw [hc, clientPollingEffect_polling]
  have hbeq : ((applyClientEvent e s).runStatus == "completed") = false := by
    simpa using h3
  unfold shouldPoll
  rw [h1, h2, hbeq]
  cases hconn : (applyClientEvent e s).isConnected
  · right
    simp
  · left
    simp

/-- C5: in the settled client model, after any non-empty sequence of events
(each handler followed by the fallback-polling effect re-run), whenever a
run id is set, the run is not a demo run and its status is not `completed`,
exactly one delivery mechanism is active: either the connection is
Connected and the fallback poller is cancelled, or the connection is not
Connected and the fallback poller is running — never both, never neither. -/
theorem spec_c5_single_delivery (s0 : ClientState) (e : ClientEvent)
    (es : List ClientEvent)
    (h1 : (clientRun (clientStep s0 e) es).runId.isSome = true)
    (h2 : (clientRun (clientStep s0 e) es).isDemo = false)
    (h3 : (clientRun (clientStep s0 e) es).runStatus ≠ "completed") :
    ((clientRun (clientStep s0 e) es).isConnected = true ∧
      (clientRun (clientStep s0 e) es).polling = false) ∨
    ((clientRun (clientStep s0 e) es).isConnected = false ∧
      (clientRun (clientStep s0 e) es).polling = true) := by
  induction es generalizing s0 e with
  | nil => exact clientStep_single_path s0 e h1 h2 h3
  | cons e' es ih =>
    have hstep : clientRun (clientStep s0 e) (e' :: es) =
        clientRun (clientStep (clientStep s0 e) e') es := rfl
    rw [hstep] at h1 h2 h3 ⊢
    exact ih (clientStep s0 e) e' h1 h2 h3

/-- Witness for C5: submit a run, then the connection opens — the poller is
off; and with the connection closed instead, the poller is on. -/
theorem spec_c5_witness :
    (clientRun (clientStep ⟨none, false, "", false, false⟩
        (ClientEvent.startRun "run_1" false "queued"))
        [ClientEvent.wsOpen]).isConnected = true ∧
    (clientRun (clientStep ⟨none, false, "", false, false⟩
        (ClientEvent.startRun "run_1" false "queued"))
        [ClientEvent.wsOpen]).polling = false ∧
    (clientRun (clientStep ⟨none, false, "", false, false⟩
        (ClientEvent.startRun "run_1" false "queued"))
        [ClientEvent.wsClose]).isConnected = false ∧
    (clientRun (clientStep ⟨none, false, "", false, false⟩
        (ClientEvent.startRun "run_1" false "queued"))
        [ClientEvent.wsClose]).polling = true := by
  have ho := spec_c5_single_delivery ⟨none, false, "", false, false⟩
    (ClientEvent.startRun "run_1" false "queued") [ClientEvent.wsOpen]
    (by decide) (by decide) (by decide)
  have hc := spec_c5_single_delivery ⟨none, false, "", false, false⟩
    (ClientEvent.startRun "run_1" false "queued") [ClientEvent.wsClose]
    (by decide) (by decide) (by decide)
  rcases ho with ⟨ho1, ho2⟩ | ⟨ho1, ho2⟩
  · rcases hc with ⟨hc1, hc2⟩ | ⟨hc1, hc2⟩
    · exact absurd hc1 (by decide)
    · exact ⟨ho1, ho2, hc1, hc2⟩
  · exact absurd ho1 (by decide)

/-! ### The interleaving counterexamples -/

/-- C2 counterexample: the claim "a cached snapshot exists only while its
run_id has at least one subscriber, ... including poll ticks that complete
after the last subscriber left" is false of the code.  Concrete execution:
one client subscribed to `"run_a"`; the timer fires; the tick issues its
fetch; the client unsubscribes (deleting set and snapshot) while the fetch
is in flight; the fetch then resolves and the tick re-inserts a snapshot
for `"run_a"`, which now has zero subscribers. -/
theorem spec_c2_counterexample :
    ¬ (∀ cfg : Config, RelayReaches cfgInit cfg →
        cacheHasSubscriber cfg.srv) := by
  intro hall
  have h1 : RelayStep cfgInit cfgTick1 :=
    RelayStep.timerFire cfgInit (by decide)
  have h2 : RelayStep cfgTick1 cfgFetch1 :=
    RelayStep.issueFetch cfgTick1 [] [] "run_a" [] (by decide) (by decide)
  have h3 : RelayStep cfgFetch1 cfgUnsub :=
    RelayStep.unsubscribeMsg cfgFetch1 "run_a" 0
  have h4 : RelayStep cfgUnsub cfgStale :=
    RelayStep.resolveOk cfgUnsub [] [] "run_a" [] stInProgress (by decide)
  have hr : RelayReaches cfgInit cfgStale :=
    Relation.ReflTransGen.head h1 (Relation.ReflTransGen.head h2
      (Relation.ReflTransGen.head h3 (Relation.ReflTransGen.single h4)))
  exact absurd (hall cfgStale hr) (by decide)

/-- C4 counterexample: the claim "poll ticks are strictly sequential — a
tick completes before the next timer fire is processed — so two fetches for
the same run_id never race" is false of the code: the interval callback
starts `pollActiveRuns()` without awaiting it.  Concrete execution: the
timer fires and the tick suspends on its fetch for `"run_a"`; the timer
fires again and the second tick issues its own fetch for `"run_a"` — two
live ticks hold racing fetches for the same run id. -/
theorem spec_c4_counterexample :
    ¬ (∀ cfg : Config, RelayReaches cfgInit cfg →
        cfg.ticks.length ≤ 1 ∧ (outstandingFetches cfg).Nodup) := by
  intro hall
  have h1 : RelayStep cfgInit cfgTick1 :=
    RelayStep.timerFire cfgInit (by decide)
  have h2 : RelayStep cfgTick1 cfgFetch1 :=
    RelayStep.issueFetch cfgTick1 [] [] "run_a" [] (by decide) (by decide)
  have h3 : RelayStep cfgFetch1 cfgTick2 :=
    RelayStep.timerFire cfgFetch1 (by decide)
  have h4 : RelayStep cfgTick2 cfgRace :=
    RelayStep.issueFetch cfgTick2 [⟨[], some "run_a"⟩] [] "run_a" []
      (by decide) (by decide)
  have hr : RelayReaches cfgInit cfgRace :=
    Relation.ReflTransGen.head h1 (Relation.ReflTransGen.head h2
      (Relation.ReflTransGen.head h3 (Relation.ReflTransGen.single h4)))
  exact absurd (hall cfgRace hr) (by decide)

/-! ### Preservation of the cache-subscriber invariant by sequential
operations -/

theorem lookupA_sweepConn_not_mem (c : Conn)
    (subs : List (String × List Conn)) (k : String)
    (hk : k ∉ subs.map Prod.fst) :
    lookupA (sweepConn c subs) k = none := by
  induction subs with
  | nil => rfl
  | cons p rest ih =>
    have hpk : ¬ p.1 = k := by
      intro he
      exact hk (by simp [he])
    have hkr : k ∉ rest.map Prod.fst := by
      intro hm
      exact hk (by simp [hm])
    simp only [sweepConn, List.filterMap_cons] at ih ⊢
    by_cases hlen : (removeConn c p.2).length = 0
    · simp only [hlen, reduceIte]
      exact ih hkr
    · simp only [hlen, reduceIte]
      simp only [lookupA, hpk, if_neg]
      exact ih hkr

theorem sweepConn_cons_drop (c : Conn) (p : String × List Conn)
    (rest : List (String × List Conn))
    (hlen : (removeConn c p.2).length = 0) :
    sweepConn c (p :: rest) = sweepConn c rest := by
  have hnil : removeConn c p.2 = [] := List.length_eq_zero.mp hlen
  simp [sweepConn, List.filterMap_cons, hnil]

theorem sweepConn_cons_keep (c : Conn) (p : String × List Conn)
    (rest : List (String × List Conn))
    (hlen : ¬ (removeConn c p.2).length = 0) :
    sweepConn c (p :: rest) =
      (p.1, removeConn c p.2) :: sweepConn c rest := by
  have hnil : ¬ removeConn c p.2 = [] := fun h => hlen (by rw [h]; rfl)
  simp [sweepConn, List.filterMap_cons, hnil]

theorem lookupA_sweepConn (c : Conn) (subs : List (String × List Conn))
    (k : String) (hk : (subs.map Prod.fst).Nodup) :
    lookupA (sweepConn c subs) k =
      match lookupA subs k with
      | none => none
      | some l =>
        if (removeConn c l).length = 0 then none
        else some (removeConn c l) := by
  induction subs with
  | nil => rfl
  | cons p rest ih =>
    have hk' : (p.1 :: rest.map Prod.fst).Nodup := by simpa using hk
    have hp1 : p.1 ∉ rest.map Prod.fst := (List.nodup_cons.mp hk').1
    have hnd : (rest.map Prod.fst).Nodup := (List.nodup_cons.mp hk').2
    by_cases hpk : p.1 = k
    · subst hpk
      by_cases hlen : (removeConn c p.2).length = 0
      · rw [sweepConn_cons_drop c p rest hlen,
          lookupA_sweepConn_not_mem c rest p.1 hp1]
        simp [lookupA, hlen]
      · rw [sweepConn_cons_keep c p rest hlen]
        simp [lookupA, hlen]
    · by_cases hlen : (removeConn c p.2).length = 0
      · rw [sweepConn_cons_drop c p rest hlen, ih hnd]
        simp [lookupA, hpk]
      · rw [sweepConn_cons_keep c p rest hlen]
        simp [lookupA, hpk, ih hnd]

theorem mem_emptiedBy_of (c : Conn) (subs : List (String × List Conn))
    (k : String) (l : List Conn) (hl : (k, l) ∈ subs)
    (hlen : (removeConn c l).length = 0) : k ∈ emptiedBy c subs :=
  List.mem_filterMap.mpr ⟨(k, l), hl, by simp [hlen]⟩

theorem pollOneRun_cache_mem (isOpen : Conn → Bool)
    (fetchEnv : String → Option RunState) (acc : TickResult) (a : String)
    {q : String × RunState}
    (h : q ∈ (pollOneRun isOpen fetchEnv acc a).state.runCache) :
    q ∈ acc.state.runCache ∨ q.1 = a := by
  unfold pollOneRun at h
  by_cases hd : isDemoRun a
  · rw [if_pos hd] at h
    exact Or.inl h
  · rw [if_neg hd] at h
    cases hf : pollRunStatus fetchEnv a with
    | none =>
      rw [hf] at h
      exact Or.inl h
    | some st =>
      rw [hf] at h
      by_cases hc : hasRunStateChanged acc.state a st
      · simp only [hc, reduceIte, broadcastRunUpdate_eq] at h
        rcases mem_insertA_strong h with ⟨hm, _⟩ | he
        · exact Or.inl hm
        · right
          rw [he]
      · simp only [hc, Bool.false_eq_true, reduceIte] at h
        exact Or.inl h

theorem foldl_pollOneRun_cache_mem (isOpen : Conn → Bool)
    (fetchEnv : String → Option RunState) (l : List String)
    (acc : TickResult) {q : String × RunState}
    (h : q ∈ (l.foldl (pollOneRun isOpen fetchEnv) acc).state.runCache) :
    q ∈ acc.state.runCache ∨ q.1 ∈ l := by
  induction l generalizing acc with
  | nil => exact Or.inl h
  | cons a l ih =>
    rw [List.foldl_cons] at h
    rcases ih (pollOneRun isOpen fetchEnv acc a) h with hm | hl
    · rcases pollOneRun_cache_mem isOpen fetchEnv acc a hm with hm' | he
      · exact Or.inl hm'
      · exact Or.inr (by simp [he])
    · exact Or.inr (List.mem_cons_of_mem a hl)

/-- C2 amended: the cache-subscriber invariant (every cached snapshot's run
has at least one subscriber) is preserved by every sequential operation of
the relay — subscribe, unsubscribe, the disconnect sweep, an atomically
completed poll tick, and a firing eviction — and after the last subscriber
of a run unsubscribes, the run leaves the active set and its snapshot is
deleted.  (By `spec_c2_counterexample` it is NOT preserved by a poll tick
whose fetch completes after the last subscriber left.) -/
theorem spec_c2_amended (s : ServerState) (r : String) (c : Conn)
    (isOpen : Conn → Bool) (fetchEnv : String → Option RunState)
    (hk : KeysNodup s) (hinv : cacheHasSubscriber s) :
    cacheHasSubscriber (subscribeToRun s r c) ∧
    cacheHasSubscriber (unsubscribeFromRun s r c) ∧
    cacheHasSubscriber (onDisconnect c s) ∧
    cacheHasSubscriber (pollActiveRuns isOpen fetchEnv s).state ∧
    cacheHasSubscriber (fireEviction r s) ∧
    (∀ c' : Conn, lookupA s.subscriptions r = some [c'] →
      r ∉ getActiveRunIds (unsubscribeFromRun s r c') ∧
      lookupA (unsubscribeFromRun s r c').runCache r = none) := by
  refine ⟨?_, ?_, ?_, ?_, ?_, ?_⟩
  · intro q hq
    have h0 := hinv q hq
    simp only [subscribeToRun, getSubscriptionCount] at h0 ⊢
    by_cases hqr : q.1 = r
    · rw [hqr, lookupA_insertA_self]
      simpa using List.length_pos.mpr (addConn_ne_nil c _)
    · rw [lookupA_insertA_ne _ _ _ _ hqr]
      exact h0
  · intro q hq
    cases hl : lookupA s.subscriptions r with
    | none =>
      simp only [unsubscribeFromRun, hl] at hq ⊢
      exact hinv q hq
    | some clients =>
      simp only [unsubscribeFromRun, hl] at hq ⊢
      by_cases hlen : (removeConn c clients).length = 0
      · rw [if_pos hlen] at hq ⊢
        obtain ⟨hqc, hqr⟩ := mem_eraseA hq
        have h0 := hinv q hqc
        unfold getSubscriptionCount at h0 ⊢
        show 0 < ((lookupA (eraseA s.subscriptions r) q.1).getD []).length
        rw [lookupA_eraseA, if_neg hqr]
        exact h0
      · rw [if_neg hlen] at hq ⊢
        have h0 := hinv q hq
        unfold getSubscriptionCount at h0 ⊢
        show 0 < ((lookupA (insertA s.subscriptions r (removeConn c
          clients)) q.1).getD []).length
        by_cases hqr : q.1 = r
        · rw [hqr, lookupA_insertA_self]
          simpa using Nat.pos_of_ne_zero hlen
        · rw [lookupA_insertA_ne _ _ _ _ hqr]
          exact h0
  · intro q hq
    simp only [onDisconnect] at hq
    have hmf := List.mem_filter.mp hq
    have hqc : q ∈ s.runCache := hmf.1
    have hne : q.1 ∉ emptiedBy c s.subscriptions := by
      have h2 := hmf.2
      simpa using h2
    have h0 := hinv q hqc
    cases hl : lookupA s.subscriptions q.1 with
    | none =>
      unfold getSubscriptionCount at h0
      rw [hl] at h0
      simp at h0
    | some l =>
      have hlen : ¬ (removeConn c l).length = 0 := by
        intro h0'
        exact hne (mem_emptiedBy_of c s.subscriptions q.1 l
          (lookupA_mem hl) h0')
      have hsw : lookupA (sweepConn c s.subscriptions) q.1 =
          some (removeConn c l) := by
        rw [lookupA_sweepConn c s.subscriptions q.1 hk, hl]
        simp [hlen]
      unfold getSubscriptionCount
      show 0 < ((lookupA (sweepConn c s.subscriptions) q.1).getD []).length
      rw [hsw]
      simpa using Nat.pos_of_ne_zero hlen
  · intro q hq
    have hsubs := pollActiveRuns_subscriptions isOpen fetchEnv s
    have hmf : q ∈ s.runCache ∨ q.1 ∈ getActiveRunIds s := by
      unfold pollActiveRuns at hq
      exact foldl_pollOneRun_cache_mem isOpen fetchEnv _ _ hq
    have h0 : 0 < getSubscriptionCount s q.1 := by
      rcases hmf with hm | ha
      · exact hinv q hm
      · exact ((mem_getActiveRunIds s q.1).mp ha).2
    unfold getSubscriptionCount at h0 ⊢
    rw [hsubs]
    exact h0
  · intro q hq
    obtain ⟨hqc, _⟩ := mem_eraseA hq
    exact hinv q hqc
  · intro c' hc'
    have hrm : (removeConn c' [c']).length = 0 := by simp [removeConn]
    constructor
    · intro hmem
      have hcount := ((mem_getActiveRunIds _ r).mp hmem).2
      simp only [unsubscribeFromRun, hc'] at hcount
      rw [if_pos hrm] at hcount
      simp [getSubscriptionCount, lookupA_eraseA] at hcount
    · simp only [unsubscribeFromRun, hc']
      rw [if_pos hrm]
      show lookupA (eraseA s.runCache r) r = none
      rw [lookupA_eraseA]
      simp

/-- Witness for the amended C2 at a concrete two-run state with one cached
snapshot. -/
theorem spec_c2_witness :
    KeysNodup (⟨[("run_a", [0]), ("run_b", [1])],
      [("run_a", stInProgress)]⟩ : ServerState) ∧
    cacheHasSubscriber (⟨[("run_a", [0]), ("run_b", [1])],
      [("run_a", stInProgress)]⟩ : ServerState) ∧
    cacheHasSubscriber (subscribeToRun ⟨[("run_a", [0]), ("run_b", [1])],
      [("run_a", stInProgress)]⟩ "run_c" 2) ∧
    cacheHasSubscriber (onDisconnect 0 ⟨[("run_a", [0]), ("run_b", [1])],
      [("run_a", stInProgress)]⟩) ∧
    ("run_a" ∉ getActiveRunIds (unsubscribeFromRun
      ⟨[("run_a", [0]), ("run_b", [1])], [("run_a", stInProgress)]⟩
      "run_a" 0) ∧
     lookupA (unsubscribeFromRun
      ⟨[("run_a", [0]), ("run_b", [1])], [("run_a", stInProgress)]⟩
      "run_a" 0).runCache "run_a" = none) := by
  have h1 := spec_c2_amended
    ⟨[("run_a", [0]), ("run_b", [1])], [("run_a", stInProgress)]⟩
    "run_c" 2 (fun _ => true) (fun _ => none) (by decide) (by decide)
  have h2 := spec_c2_amended
    ⟨[("run_a", [0]), ("run_b", [1])], [("run_a", stInProgress)]⟩
    "run_a" 0 (fun _ => true) (fun _ => none) (by decide) (by decide)
  exact ⟨by decide, by decide, h1.1, h2.2.2.1,
    h2.2.2.2.2.2 0 (by decide)⟩

/-- C4 amended: each live tick holds at most one outstanding fetch, so if
ticks were strictly sequential (at most one live tick at any instant) no
two fetches for the same run id would ever coexist; and within one
atomically executed tick each run is broadcast at most once (broadcasts
follow the processing order of the active list).  The sequentiality premise
itself is NOT established by the code (see `spec_c4_counterexample`). -/
theorem spec_c4_amended :
    (∀ cfg : Config, cfg.ticks.length ≤ 1 →
      (outstandingFetches cfg).Nodup) ∧
    (∀ (isOpen : Conn → Bool) (fetchEnv : String → Option RunState)
      (s : ServerState) (r : String), KeysNodup s →
      broadcastCount (pollActiveRuns isOpen fetchEnv s) r ≤ 1) := by
  constructor
  · intro cfg h
    obtain ⟨srv, ticks⟩ := cfg
    simp only [outstandingFetches]
    rcases ticks with _ | ⟨t, _ | ⟨t2, rest⟩⟩
    · simp
    · cases ho : t.outstanding <;> simp [List.filterMap_cons, ho]
    · exfalso
      simp only [List.length_cons] at h
      omega
  · intro isOpen fetchEnv s r hk
    by_cases hr : r ∈ getActiveRunIds s
    · rw [pollActiveRuns_count_active isOpen fetchEnv s r hk hr]
      unfold tickOutcome
      by_cases hd : isDemoRun r
      · simp [hd]
      · simp only [hd, Bool.false_eq_true, reduceIte]
        cases hf : fetchEnv r with
        | none => simp
        | some st =>
          by_cases hc : changedAgainst (lookupA s.runCache r) st
          · simp [hc]
          · simp [hc]
    · rw [pollActiveRuns_count_inactive isOpen fetchEnv s r hr]
      omega

/-- Witness for the amended C4 at a concrete configuration and state. -/
theorem spec_c4_witness :
    ((⟨⟨[], []⟩, [⟨[], some "run_a"⟩]⟩ : Config).ticks.length ≤ 1) ∧
    (outstandingFetches ⟨⟨[], []⟩, [⟨[], some "run_a"⟩]⟩).Nodup ∧
    KeysNodup (⟨[("run_a", [0])], []⟩ : ServerState) ∧
    broadcastCount (pollActiveRuns (fun _ => true)
      (fun _ => some stInProgress) ⟨[("run_a", [0])], []⟩) "run_a" ≤ 1 := by
  have h := spec_c4_amended
  exact ⟨by decide, h.1 _ (by decide), by decide,
    h.2 (fun _ => true) (fun _ => some stInProgress) _ "run_a" (by decide)⟩
